import Mathlib

/-!
Verification of the reminder subsystem of the expenses_reminder repository.

The development shallowly embeds the relevant JavaScript modules:
  * backend/scheduler/reminderScheduler.js : processReminders and
    createNextRecurringExpense (the sweep over the due set);
  * backend/routes/expenses.js : the create (POST) and update (PUT) routes;
  * backend/server.js : the read-only pending-reminders diagnostic query;
  * backend/services/emailService.js : sendReminderEmail.

Calendar dates are SQL DATE values, rendered in SQL and in JS as ISO
strings YYYY-MM-DD; comparison of such strings agrees with the
lexicographic order on the (year, month, day) triple, which is how dates
are modelled here.
-/

namespace ExpensesReminder

/-- Calendar date triple, standing for an ISO YYYY-MM-DD string. -/
structure SDate where
  y : Nat
  m : Nat
  d : Nat
deriving DecidableEq, Repr

/-- SQL comparison date1 <= date2 on DATE values (equivalently on ISO strings). -/
def dateLe (a b : SDate) : Bool :=
  decide (a.y < b.y ∨ (a.y = b.y ∧ (a.m < b.m ∨ (a.m = b.m ∧ a.d ≤ b.d))))

/-- Strict comparison date1 < date2, used by the JS check
new Date(reminder_date) > new Date(due_date) in the create route. -/
def dateLt (a b : SDate) : Bool :=
  decide (a.y < b.y ∨ (a.y = b.y ∧ (a.m < b.m ∨ (a.m = b.m ∧ a.d < b.d))))

/-- Gregorian leap-year rule, as implemented by the JS Date object. -/
def isLeapYear (y : Nat) : Bool :=
  decide ((y % 4 = 0 ∧ y % 100 ≠ 0) ∨ y % 400 = 0)

/-- Number of days of month m (1-12) of year y, as used by JS Date
normalisation. -/
def daysInMonth (y m : Nat) : Nat :=
  if m = 2 then (if isLeapYear y then 29 else 28)
  else if m = 4 ∨ m = 6 ∨ m = 9 ∨ m = 11 then 30
  else 31

/-- Embedding of the date computation of createNextRecurringExpense:
new Date(s) parses the ISO string, d.setMonth(d.getMonth() + 1) adds one
to the month index and lets the JS Date normalisation carry a day-of-month
that exceeds the length of the target month over into the following month,
and toISOString().split('T')[0] renders the result back. For any day value
at most 31 the normalisation overflows at most once, since every month has
at least 28 days, which the second branch below covers. -/
def addOneMonthJS (dt : SDate) : SDate :=
  let y1 := if dt.m = 12 then dt.y + 1 else dt.y
  let m1 := if dt.m = 12 then 1 else dt.m + 1
  if dt.d ≤ daysInMonth y1 m1 then ⟨y1, m1, dt.d⟩
  else
    let y2 := if m1 = 12 then y1 + 1 else y1
    let m2 := if m1 = 12 then 1 else m1 + 1
    ⟨y2, m2, dt.d - daysInMonth y1 m1⟩

/-- Row of the expenses table (schema of config/database.js). The paid and
paid_at columns are nullable and absent rows carry NULL. -/
structure Expense where
  id : Nat
  user_id : Nat
  expense_name : String
  amount : Int
  category : String
  due_date : SDate
  reminder_date : SDate
  recurring : String
  email_sent : Nat
  paid : Option Nat
  paid_at : Option String
deriving DecidableEq, Repr

/-- Row of the users table (only the columns the reminder subsystem reads). -/
structure User where
  id : Nat
  name : String
  email : String
deriving DecidableEq, Repr

/-- Relational store holding both tables; nextId models the SERIAL or
AUTOINCREMENT primary-key counter of the expenses table. -/
structure Store where
  users : List User
  expenses : List Expense
  nextId : Nat
deriving DecidableEq, Repr

/-- Database well-formedness: primary keys are unique and below the
auto-increment counter. -/
def WF (st : Store) : Prop :=
  (st.expenses.map Expense.id).Nodup ∧
  (st.users.map User.id).Nodup ∧
  ∀ e ∈ st.expenses, e.id < st.nextId

/-- Embedding of the sqlite helper get for SELECT ... WHERE id = ?, which
returns the first matching row or null. -/
def getE : List Expense → Nat → Option Expense
  | [], _ => none
  | e :: es, i => if e.id = i then some e else getE es i

/-- Rows of the users table matching the join condition u.id = e.user_id
for one expense row e. -/
def matchUsers (us : List User) (e : Expense) : List (Expense × User) :=
  (us.filter (fun u => u.id == e.user_id)).map (fun u => (e, u))

/-- WHERE clause of the due-set query of processReminders:
e.reminder_date <= today AND e.email_sent = 0. -/
def duePred (today : SDate) (e : Expense) : Bool :=
  dateLe e.reminder_date today && (e.email_sent == 0)

/-- Unordered result of the due-set query of processReminders
(reminderScheduler.js): expenses JOIN users ON e.user_id = u.id
WHERE e.reminder_date <= today AND e.email_sent = 0. -/
def dueJoin (st : Store) (today : SDate) : List (Expense × User) :=
  (st.expenses.filter (duePred today)).flatMap (matchUsers st.users)

/-- ORDER BY e.due_date ASC key of the due-set query. -/
def dueKeyLe (p q : Expense × User) : Prop :=
  dateLe p.1.due_date q.1.due_date = true

instance : DecidableRel dueKeyLe :=
  fun p q => inferInstanceAs (Decidable (dateLe p.1.due_date q.1.due_date = true))

instance : IsTotal (Expense × User) dueKeyLe :=
  ⟨fun p q => by
    simp only [dueKeyLe, dateLe, decide_eq_true_eq]
    omega⟩

instance : IsTrans (Expense × User) dueKeyLe :=
  ⟨fun a b c h1 h2 => by
    simp only [dueKeyLe, dateLe, decide_eq_true_eq] at h1 h2 ⊢
    omega⟩

/-- Due set of a sweep: the due-set query result ordered ascending by
due_date. -/
def dueSorted (st : Store) (today : SDate) : List (Expense × User) :=
  List.insertionSort dueKeyLe (dueJoin st today)

/-- Outcome of one sendReminderEmail invocation as observed by the sweep
loop: ok is a result with success true, fail a result with success false,
err an exception thrown while the item is processed (caught by the
per-item try/catch before any database write for the item takes effect). -/
inductive SendOutcome where
  | ok
  | fail
  | err
deriving DecidableEq, Repr

/-- Copy of an expense row with the email_sent column replaced. -/
def withSent (e : Expense) (b : Nat) : Expense :=
  { e with email_sent := b }

/-- Embedding of UPDATE expenses SET email_sent = 1 WHERE id = ?. -/
def markList (i : Nat) (l : List Expense) : List Expense :=
  l.map (fun e => if e.id = i then withSent e 1 else e)

/-- Store after marking expense i as sent. -/
def markSent (st : Store) (i : Nat) : Store :=
  { st with expenses := markList i st.expenses }

/-- State threaded through one sweep: the store plus the observable event
log, namely the ids passed to sendReminderEmail and the successor rows
inserted by createNextRecurringExpense tagged with the id of the expense
they were created for. -/
structure SweepState where
  store : Store
  calls : List Nat
  inserted : List (Nat × Expense)
deriving Repr

/-- Embedding of createNextRecurringExpense of reminderScheduler.js: look
up user_id of the original expense, add one month to due_date and
reminder_date with JS Date setMonth semantics, and INSERT the successor
with recurring = yes and email_sent = 0 (paid and paid_at take their NULL
defaults). A failed lookup makes the JS body throw, which its own
try/catch turns into a no-op. -/
def createNextRecurringExpense (s : SweepState) (p : Expense × User) : SweepState :=
  match getE s.store.expenses p.1.id with
  | none => s
  | some orig =>
    let newE : Expense :=
      { id := s.store.nextId
        user_id := orig.user_id
        expense_name := p.1.expense_name
        amount := p.1.amount
        category := p.1.category
        due_date := addOneMonthJS p.1.due_date
        reminder_date := addOneMonthJS p.1.reminder_date
        recurring := "yes"
        email_sent := 0
        paid := none
        paid_at := none }
    { s with
      store := { users := s.store.users
                 expenses := s.store.expenses ++ [newE]
                 nextId := s.store.nextId + 1 }
      inserted := s.inserted ++ [(p.1.id, newE)] }

/-- Body of the for-loop of processReminders for one due-set item: call
sendReminderEmail, and on success mark the expense sent and, when
recurring = yes, create the successor; on failure or on a caught per-item
exception leave the store unchanged and continue. The outcome oracle is
indexed by expense id, which identifies the item uniquely in a
well-formed store. -/
def processItem (oracle : Nat → SendOutcome) (s : SweepState) (p : Expense × User) : SweepState :=
  let s0 : SweepState := { s with calls := s.calls ++ [p.1.id] }
  match oracle p.1.id with
  | .ok =>
    let s1 : SweepState := { s0 with store := markSent s0.store p.1.id }
    if p.1.recurring = "yes" then createNextRecurringExpense s1 p else s1
  | .fail => s0
  | .err => s0

/-- Embedding of processReminders of reminderScheduler.js: query the due
set once, then process its items sequentially. -/
def processReminders (st : Store) (today : SDate) (oracle : Nat → SendOutcome) : SweepState :=
  (dueSorted st today).foldl (processItem oracle) { store := st, calls := [], inserted := [] }

/-- WHERE clause of the pending-reminders diagnostic query of server.js:
e.reminder_date <= today AND e.email_sent = 0 AND (e.paid = 0 OR e.paid
IS NULL). -/
def pendingPred (today : SDate) (e : Expense) : Bool :=
  dateLe e.reminder_date today && (e.email_sent == 0) &&
    decide (e.paid = some 0 ∨ e.paid = none)

/-- Unordered result of the pending-reminders diagnostic query. -/
def pendingJoin (st : Store) (today : SDate) : List (Expense × User) :=
  (st.expenses.filter (pendingPred today)).flatMap (matchUsers st.users)

/-- ORDER BY e.reminder_date key of the pending-reminders query. -/
def pendingKeyLe (p q : Expense × User) : Prop :=
  dateLe p.1.reminder_date q.1.reminder_date = true

instance : DecidableRel pendingKeyLe :=
  fun p q => inferInstanceAs (Decidable (dateLe p.1.reminder_date q.1.reminder_date = true))

instance : IsTotal (Expense × User) pendingKeyLe :=
  ⟨fun p q => by
    simp only [pendingKeyLe, dateLe, decide_eq_true_eq]
    omega⟩

instance : IsTrans (Expense × User) pendingKeyLe :=
  ⟨fun a b c h1 h2 => by
    simp only [pendingKeyLe, dateLe, decide_eq_true_eq] at h1 h2 ⊢
    omega⟩

/-- Result rows of GET /api/pending-reminders, ordered by reminder_date. -/
def pendingSorted (st : Store) (today : SDate) : List (Expense × User) :=
  List.insertionSort pendingKeyLe (pendingJoin st today)

/-- Request body of POST /api/expenses after the express-validator layer,
which only checks formats (ISO dates, category membership, positive
amount); dates therefore arrive as parsed calendar dates. -/
structure CreateBody where
  expense_name : String
  amount : Int
  category : Option String
  due_date : SDate
  reminder_date : SDate
  recurring : Option String
deriving DecidableEq, Repr

/-- Embedding of the POST /api/expenses handler of routes/expenses.js: it
rejects a body whose reminder_date parses to a later instant than
due_date, otherwise INSERTs the row with defaults category Other,
recurring no, email_sent 0. An error response leaves the store untouched. -/
def createExpense (st : Store) (uid : Nat) (b : CreateBody) : Except String Store :=
  if dateLt b.due_date b.reminder_date then
    .error "Reminder date cannot be after due date"
  else
    .ok { st with
          expenses := st.expenses ++
            [{ id := st.nextId
               user_id := uid
               expense_name := b.expense_name
               amount := b.amount
               category := b.category.getD "Other"
               due_date := b.due_date
               reminder_date := b.reminder_date
               recurring := b.recurring.getD "no"
               email_sent := 0
               paid := none
               paid_at := none }]
          nextId := st.nextId + 1 }

/-- Request body of PUT /api/expenses/:id after the express-validator
layer; every field is optional and an absent field is left out of the SET
list. -/
structure UpdateBody where
  expense_name : Option String
  amount : Option Int
  category : Option String
  due_date : Option SDate
  reminder_date : Option SDate
  recurring : Option String
deriving DecidableEq, Repr

/-- SET list of the dynamic UPDATE built by the PUT handler, applied to
one row: each provided field is assigned, and a provided reminder_date
additionally assigns email_sent = 0. -/
def applyUpdates (e : Expense) (b : UpdateBody) : Expense :=
  let e1 := match b.expense_name with
    | some v => { e with expense_name := v }
    | none => e
  let e2 := match b.amount with
    | some v => { e1 with amount := v }
    | none => e1
  let e3 := match b.category with
    | some v => { e2 with category := v }
    | none => e2
  let e4 := match b.due_date with
    | some v => { e3 with due_date := v }
    | none => e3
  let e5 := match b.reminder_date with
    | some v => { e4 with reminder_date := v, email_sent := 0 }
    | none => e4
  match b.recurring with
    | some v => { e5 with recurring := v }
    | none => e5

/-- True when the request body provides no field, which the handler
answers with the No fields to update error. -/
def updatesEmpty (b : UpdateBody) : Bool :=
  b.expense_name.isNone && b.amount.isNone && b.category.isNone &&
    b.due_date.isNone && b.reminder_date.isNone && b.recurring.isNone

/-- Embedding of SELECT * FROM expenses WHERE id = ? AND user_id = ?. -/
def getOwned (l : List Expense) (eid uid : Nat) : Option Expense :=
  l.find? (fun e => e.id == eid && e.user_id == uid)

/-- Embedding of the PUT /api/expenses/:id handler of routes/expenses.js:
404 when no row matches id and user, 400 when the SET list is empty, and
otherwise the dynamic UPDATE ... WHERE id = ? AND user_id = ?. The
handler performs no comparison between reminder_date and due_date. -/
def updateExpense (st : Store) (uid eid : Nat) (b : UpdateBody) : Except String Store :=
  match getOwned st.expenses eid uid with
  | none => .error "Expense not found"
  | some _ =>
    if updatesEmpty b then .error "No fields to update"
    else
      .ok { st with
            expenses := st.expenses.map
              (fun e => if e.id = eid ∧ e.user_id = uid then applyUpdates e b else e) }

/-- Behaviour of one resend.emails.send invocation: the promise can
reject (throws), resolve with a non-null error field (errs), or resolve
with data carrying the provider message id (ok). -/
inductive ProviderResult where
  | throws (msg : String)
  | errs (msg : String)
  | ok (msgId : String)
deriving DecidableEq, Repr

/-- Value returned by sendReminderEmail to its caller. -/
inductive SendResult where
  | failure (error : String)
  | success (messageId : String)
deriving DecidableEq, Repr

/-- Embedding of sendReminderEmail of services/emailService.js. The
argument models the module state together with the provider behaviour:
none when initializeTransporter left the client unset, otherwise the
outcome of the provider call. The message formatting is pure string and
number rendering with no effect on the returned value and no thrown
exception, and the try/catch around the provider call turns a rejected
promise into a failure result, so the function always returns a value. -/
def sendReminderEmail (client : Option ProviderResult) : SendResult :=
  match client with
  | none => .failure "Email service not configured"
  | some (.throws m) => .failure m
  | some (.errs m) => .failure m
  | some (.ok i) => .success i

instance (st : Store) : Decidable (WF st) :=
  inferInstanceAs (Decidable (_ ∧ _ ∧ ∀ e ∈ st.expenses, e.id < st.nextId))

/-- Shape of a successor row relative to the due-set item it was created
for: same owner, name, amount and category, dates advanced by one month
with JS setMonth semantics, recurring yes, email_sent 0, paid NULL. -/
def succShape (p : Expense × User) (e2 : Expense) : Prop :=
  e2.user_id = p.1.user_id ∧ e2.expense_name = p.1.expense_name ∧
  e2.amount = p.1.amount ∧ e2.category = p.1.category ∧
  e2.due_date = addOneMonthJS p.1.due_date ∧
  e2.reminder_date = addOneMonthJS p.1.reminder_date ∧
  e2.recurring = "yes" ∧ e2.email_sent = 0 ∧ e2.paid = none

/-- Distinctness of the expense ids of a list of joined rows. -/
def NodupIds (l : List (Expense × User)) : Prop :=
  (l.map (fun p => p.1.id)).Nodup

/-- Invariant carried through the sweep loop: every still-unprocessed
due-set row is present in the store, unchanged except possibly for its
email_sent column. -/
def InvDue (s : SweepState) (l : List (Expense × User)) : Prop :=
  ∀ q ∈ l, ∃ b, getE s.store.expenses q.1.id = some (withSent q.1 b)

/-- Sample user for concrete evaluations. -/
def uA : User := { id := 1, name := "Asha", email := "asha@example.com" }

/-- Sample expense due soon, reminder equal to the sample sweep day. -/
def eRent : Expense :=
  { id := 1, user_id := 1, expense_name := "Rent", amount := 5000, category := "Bills"
    due_date := ⟨2024, 3, 15⟩, reminder_date := ⟨2024, 3, 10⟩, recurring := "yes"
    email_sent := 0, paid := none, paid_at := none }

/-- Sample expense with a long-past reminder date. -/
def eGym : Expense :=
  { id := 3, user_id := 1, expense_name := "Gym", amount := 700, category := "Health"
    due_date := ⟨2024, 1, 10⟩, reminder_date := ⟨2024, 1, 5⟩, recurring := "yes"
    email_sent := 0, paid := none, paid_at := none }

/-- Sample expense whose reminder date is after the sample sweep day. -/
def eFuture : Expense :=
  { id := 4, user_id := 1, expense_name := "Insurance", amount := 100, category := "Other"
    due_date := ⟨2024, 12, 15⟩, reminder_date := ⟨2024, 12, 1⟩, recurring := "no"
    email_sent := 0, paid := none, paid_at := none }

/-- Sample expense already notified, used for the update scenarios. -/
def eNote : Expense :=
  { id := 6, user_id := 1, expense_name := "Netflix", amount := 200, category := "Bills"
    due_date := ⟨2024, 5, 20⟩, reminder_date := ⟨2024, 5, 15⟩, recurring := "no"
    email_sent := 1, paid := none, paid_at := none }

/-- Sample store. -/
def stA : Store := { users := [uA], expenses := [eRent, eGym, eFuture, eNote], nextId := 10 }

/-- Sample sweep day. -/
def dayA : SDate := ⟨2024, 3, 10⟩

/-- Oracle under which every send succeeds. -/
def okOracle : Nat → SendOutcome := fun _ => SendOutcome.ok

/-- Oracle under which the send for expense 3 fails and every other send
succeeds. -/
def failOracle : Nat → SendOutcome := fun i => if i = 3 then SendOutcome.fail else SendOutcome.ok

/-- Store holding one recurring expense due on a month-end day, the
failing input of the recurrence claim. -/
def stJ : Store :=
  { users := [uA]
    expenses := [{ id := 5, user_id := 1, expense_name := "Card", amount := 900
                   category := "Bills", due_date := ⟨2024, 1, 31⟩
                   reminder_date := ⟨2024, 1, 25⟩, recurring := "yes"
                   email_sent := 0, paid := none, paid_at := none }]
    nextId := 10 }

/-- Update body that only replaces reminder_date. -/
def bodyR : UpdateBody :=
  { expense_name := none, amount := none, category := none, due_date := none
    reminder_date := some ⟨2024, 6, 1⟩, recurring := none }

/-- Update body that moves reminder_date after the stored due_date. -/
def bodyV : UpdateBody :=
  { expense_name := none, amount := none, category := none, due_date := none
    reminder_date := some ⟨2024, 12, 31⟩, recurring := none }

/-- Expected store after applying bodyR to expense 6 of the sample store. -/
def stA6 : Store :=
  { users := [uA]
    expenses := [eRent, eGym, eFuture,
                 { eNote with reminder_date := ⟨2024, 6, 1⟩, email_sent := 0 }]
    nextId := 10 }

/-- Expected store after applying bodyV to expense 6 of the sample store. -/
def stA6V : Store :=
  { users := [uA]
    expenses := [eRent, eGym, eFuture,
                 { eNote with reminder_date := ⟨2024, 12, 31⟩, email_sent := 0 }]
    nextId := 10 }

/-- Create body violating the date invariant. -/
def bodyBad : CreateBody :=
  { expense_name := "Loan", amount := 1000, category := some "Bills"
    due_date := ⟨2024, 7, 1⟩, reminder_date := ⟨2024, 7, 5⟩, recurring := none }

/-- Create body respecting the date invariant. -/
def bodyGood : CreateBody :=
  { expense_name := "Loan", amount := 1000, category := some "Bills"
    due_date := ⟨2024, 7, 10⟩, reminder_date := ⟨2024, 7, 5⟩, recurring := none }

/-- Row the create route inserts for bodyGood. -/
def eLoan : Expense :=
  { id := 10, user_id := 1, expense_name := "Loan", amount := 1000
    category := "Bills", due_date := ⟨2024, 7, 10⟩
    reminder_date := ⟨2024, 7, 5⟩, recurring := "no"
    email_sent := 0, paid := none, paid_at := none }

/-- Expected store after creating bodyGood in the sample store. -/
def stA7 : Store :=
  { users := [uA], expenses := [eRent, eGym, eFuture, eNote, eLoan], nextId := 11 }

/-- Expense marked paid with a due reminder, separating the two due-set
queries. -/
def ePaid : Expense :=
  { id := 7, user_id := 1, expense_name := "Water", amount := 300, category := "Bills"
    due_date := ⟨2024, 3, 12⟩, reminder_date := ⟨2024, 3, 1⟩, recurring := "no"
    email_sent := 0, paid := some 1, paid_at := some "2024-03-02T00:00:00Z" }

/-- Store separating the sweep due-set query from the pending-reminders
query. -/
def stC : Store := { users := [uA], expenses := [ePaid], nextId := 10 }

/-- Successor row the sample sweep inserts for expense 3. -/
def succGym : Expense :=
  { id := 10, user_id := 1, expense_name := "Gym", amount := 700, category := "Health"
    due_date := ⟨2024, 2, 10⟩, reminder_date := ⟨2024, 2, 5⟩, recurring := "yes"
    email_sent := 0, paid := none, paid_at := none }

theorem withSent_id (e : Expense) (b : Nat) : (withSent e b).id = e.id := rfl

theorem withSent_sent (e : Expense) (b : Nat) : (withSent e b).email_sent = b := rfl

theorem getE_id {l : List Expense} {i : Nat} {e : Expense} (h : getE l i = some e) :
    e.id = i := by
  induction l with
  | nil => simp [getE] at h
  | cons a as ih =>
    by_cases ha : a.id = i
    · simp only [getE, if_pos ha] at h
      cases h
      exact ha
    · simp only [getE, if_neg ha] at h
      exact ih h

theorem getE_of_mem_nodup {l : List Expense} {e : Expense}
    (hn : (l.map Expense.id).Nodup) (hm : e ∈ l) : getE l e.id = some e := by
  induction l with
  | nil => simp at hm
  | cons a as ih =>
    simp only [List.map_cons, List.nodup_cons] at hn
    rcases List.mem_cons.mp hm with h | h
    · subst h
      simp [getE]
    · have hne : a.id ≠ e.id := fun hid => hn.1 (hid ▸ List.mem_map_of_mem Expense.id h)
      simp only [getE, if_neg hne]
      exact ih hn.2 h

theorem mem_of_getE {l : List Expense} {i : Nat} {e : Expense} (h : getE l i = some e) :
    e ∈ l := by
  induction l with
  | nil => simp [getE] at h
  | cons a as ih =>
    by_cases ha : a.id = i
    · simp [getE, ha] at h
      simp [h]
    · simp only [getE, if_neg ha] at h
      exact List.mem_cons_of_mem a (ih h)

theorem getE_append_some {l l2 : List Expense} {i : Nat} {e : Expense}
    (h : getE l i = some e) : getE (l ++ l2) i = some e := by
  induction l with
  | nil => simp [getE] at h
  | cons a as ih =>
    by_cases ha : a.id = i
    · simp_all [getE]
    · simp_all [getE]

theorem withSent_withSent (e : Expense) (b c : Nat) :
    withSent (withSent e b) c = withSent e c := rfl

theorem withSent_self (e : Expense) : withSent e e.email_sent = e := rfl

theorem getE_markList_ne {l : List Expense} {i j : Nat} (hne : j ≠ i) :
    getE (markList j l) i = getE l i := by
  induction l with
  | nil => rfl
  | cons a as ih =>
    by_cases haj : a.id = j
    · have hai : a.id ≠ i := by rw [haj]; exact hne
      simp only [markList, List.map_cons, if_pos haj, getE, withSent_id, if_neg hai]
      exact ih
    · simp only [markList, List.map_cons, if_neg haj, getE]
      by_cases hai : a.id = i
      · simp only [if_pos hai]
      · simp only [if_neg hai]
        exact ih

theorem getE_markList_eq {l : List Expense} {i : Nat} {e : Expense}
    (h : getE l i = some e) : getE (markList i l) i = some (withSent e 1) := by
  induction l with
  | nil => simp [getE] at h
  | cons a as ih =>
    by_cases ha : a.id = i
    · simp only [getE, if_pos ha] at h
      cases h
      simp only [markList, List.map_cons, if_pos ha, getE, withSent_id, if_pos ha]
    · simp only [getE, if_neg ha] at h
      simp only [markList, List.map_cons, if_neg ha, getE, if_neg ha]
      exact ih h

theorem markList_map_id (j : Nat) (l : List Expense) :
    (markList j l).map Expense.id = l.map Expense.id := by
  induction l with
  | nil => rfl
  | cons a as ih =>
    by_cases ha : a.id = j
    · simp only [markList, List.map_cons, if_pos ha, withSent_id] at *
      rw [ih]
    · simp only [markList, List.map_cons, if_neg ha] at *
      rw [ih]

theorem withSent_user_id (e : Expense) (b : Nat) : (withSent e b).user_id = e.user_id := rfl

theorem createNext_calls (s : SweepState) (p : Expense × User) :
    (createNextRecurringExpense s p).calls = s.calls := by
  unfold createNextRecurringExpense
  cases getE s.store.expenses p.1.id <;> rfl

theorem createNext_users (s : SweepState) (p : Expense × User) :
    (createNextRecurringExpense s p).store.users = s.store.users := by
  unfold createNextRecurringExpense
  cases getE s.store.expenses p.1.id <;> rfl

theorem createNext_getE_some {s : SweepState} {p : Expense × User} {i : Nat} {e : Expense}
    (h : getE s.store.expenses i = some e) :
    getE (createNextRecurringExpense s p).store.expenses i = some e := by
  unfold createNextRecurringExpense
  cases getE s.store.expenses p.1.id with
  | none => exact h
  | some orig => exact getE_append_some h

theorem processItem_calls (oracle : Nat → SendOutcome) (s : SweepState) (p : Expense × User) :
    (processItem oracle s p).calls = s.calls ++ [p.1.id] := by
  unfold processItem
  cases oracle p.1.id with
  | ok =>
    by_cases hr : p.1.recurring = "yes"
    · simp only [if_pos hr]
      rw [createNext_calls]
    · simp only [if_neg hr]
  | fail => rfl
  | err => rfl

theorem processItem_users (oracle : Nat → SendOutcome) (s : SweepState) (p : Expense × User) :
    (processItem oracle s p).store.users = s.store.users := by
  unfold processItem
  cases oracle p.1.id with
  | ok =>
    by_cases hr : p.1.recurring = "yes"
    · simp only [if_pos hr]
      rw [createNext_users]
      rfl
    · simp only [if_neg hr]
      rfl
  | fail => rfl
  | err => rfl

theorem processItem_store_notok {oracle : Nat → SendOutcome} {s : SweepState}
    {p : Expense × User} (h : oracle p.1.id ≠ SendOutcome.ok) :
    (processItem oracle s p).store = s.store := by
  unfold processItem
  cases horacle : oracle p.1.id with
  | ok => exact absurd horacle h
  | fail => rfl
  | err => rfl

theorem processItem_inserted_notok {oracle : Nat → SendOutcome} {s : SweepState}
    {p : Expense × User} (h : oracle p.1.id ≠ SendOutcome.ok) :
    (processItem oracle s p).inserted = s.inserted := by
  unfold processItem
  cases horacle : oracle p.1.id with
  | ok => exact absurd horacle h
  | fail => rfl
  | err => rfl

theorem processItem_getE_ne {oracle : Nat → SendOutcome} {s : SweepState}
    {p : Expense × User} {i : Nat} {e : Expense}
    (h : getE s.store.expenses i = some e) (hne : p.1.id ≠ i) :
    getE (processItem oracle s p).store.expenses i = some e := by
  unfold processItem
  cases oracle p.1.id with
  | ok =>
    have h1 : getE (markSent s.store p.1.id).expenses i = some e := by
      simpa [markSent] using (getE_markList_ne hne).trans h
    by_cases hr : p.1.recurring = "yes"
    · simp only [if_pos hr]
      exact createNext_getE_some h1
    · simp only [if_neg hr]
      exact h1
  | fail => exact h
  | err => exact h

theorem processItem_getE_ok {oracle : Nat → SendOutcome} {s : SweepState}
    {p : Expense × User} {e : Expense}
    (horacle : oracle p.1.id = SendOutcome.ok)
    (h : getE s.store.expenses p.1.id = some e) :
    getE (processItem oracle s p).store.expenses p.1.id = some (withSent e 1) := by
  unfold processItem
  rw [horacle]
  have h1 : getE (markSent s.store p.1.id).expenses p.1.id = some (withSent e 1) := by
    simpa [markSent] using getE_markList_eq h
  by_cases hr : p.1.recurring = "yes"
  · simp only [if_pos hr]
    exact createNext_getE_some h1
  · simp only [if_neg hr]
    exact h1

theorem processItem_inserted_mem {oracle : Nat → SendOutcome} {s : SweepState}
    {p : Expense × User} {b : Nat} {q : Nat × Expense}
    (hlook : getE s.store.expenses p.1.id = some (withSent p.1 b))
    (hq : q ∈ (processItem oracle s p).inserted) :
    q ∈ s.inserted ∨
      (oracle p.1.id = SendOutcome.ok ∧ p.1.recurring = "yes" ∧
        q.1 = p.1.id ∧ succShape p q.2) := by
  unfold processItem at hq
  cases horacle : oracle p.1.id with
  | ok =>
    rw [horacle] at hq
    by_cases hr : p.1.recurring = "yes"
    · simp only [if_pos hr] at hq
      have hmark : getE (markSent s.store p.1.id).expenses p.1.id
          = some (withSent p.1 1) := by
        simpa [markSent, withSent_withSent] using getE_markList_eq hlook
      unfold createNextRecurringExpense at hq
      rw [hmark] at hq
      simp only [List.mem_append, List.mem_singleton] at hq
      rcases hq with hq | hq
      · exact Or.inl hq
      · refine Or.inr ⟨rfl, hr, ?_, ?_⟩
        · rw [hq]
        · rw [hq]
          exact ⟨withSent_user_id p.1 1, rfl, rfl, rfl, rfl, rfl, rfl, rfl, rfl⟩
    · simp only [if_neg hr] at hq
      exact Or.inl hq
  | fail =>
    rw [horacle] at hq
    exact Or.inl hq
  | err =>
    rw [horacle] at hq
    exact Or.inl hq

theorem WF_markSent (st : Store) (j : Nat) (h : WF st) : WF (markSent st j) := by
  obtain ⟨h1, h2, h3⟩ := h
  refine ⟨?_, h2, ?_⟩
  · simpa [markSent, markList_map_id] using h1
  · intro e he
    simp only [markSent, markList, List.mem_map] at he
    obtain ⟨a, ha, hae⟩ := he
    have : e.id = a.id := by
      rw [← hae]
      by_cases haj : a.id = j <;> simp [haj, withSent_id]
    rw [this]
    exact h3 a ha

theorem WF_createNext {s : SweepState} (p : Expense × User) (h : WF s.store) :
    WF (createNextRecurringExpense s p).store := by
  unfold createNextRecurringExpense
  split
  · exact h
  · obtain ⟨h1, h2, h3⟩ := h
    refine ⟨?_, h2, ?_⟩
    · show ((s.store.expenses ++ [_]).map Expense.id).Nodup
      rw [List.map_append]
      rw [List.nodup_append]
      refine ⟨h1, List.nodup_singleton _, ?_⟩
      intro x hx hx2
      simp only [List.map_cons, List.map_nil, List.mem_singleton] at hx2
      obtain ⟨a, ha, hax⟩ := List.mem_map.mp hx
      have := h3 a ha
      have hxid : x = s.store.nextId := hx2
      omega
    · show ∀ e ∈ s.store.expenses ++ [_], e.id < s.store.nextId + 1
      intro e he
      rcases List.mem_append.mp he with he | he
      · have := h3 e he
        omega
      · simp only [List.mem_singleton] at he
        rw [he]
        show s.store.nextId < s.store.nextId + 1
        omega

theorem WF_processItem (oracle : Nat → SendOutcome) (s : SweepState) (p : Expense × User)
    (h : WF s.store) : WF (processItem oracle s p).store := by
  unfold processItem
  cases oracle p.1.id with
  | ok =>
    by_cases hr : p.1.recurring = "yes"
    · simp only [if_pos hr]
      exact WF_createNext p (WF_markSent s.store p.1.id h)
    · simp only [if_neg hr]
      exact WF_markSent s.store p.1.id h
  | fail => exact h
  | err => exact h

theorem NodupIds_tail {p : Expense × User} {l : List (Expense × User)}
    (h : NodupIds (p :: l)) : NodupIds l := by
  simp only [NodupIds, List.map_cons, List.nodup_cons] at h
  exact h.2

theorem NodupIds_head {p : Expense × User} {l : List (Expense × User)}
    (h : NodupIds (p :: l)) : ∀ q ∈ l, p.1.id ≠ q.1.id := by
  simp only [NodupIds, List.map_cons, List.nodup_cons] at h
  intro q hq heq
  exact h.1 (heq ▸ List.mem_map_of_mem (fun p => p.1.id) hq)

theorem InvDue_step {oracle : Nat → SendOutcome} {s : SweepState}
    {p : Expense × User} {l : List (Expense × User)}
    (hn : NodupIds (p :: l)) (hInv : InvDue s (p :: l)) :
    InvDue (processItem oracle s p) l := by
  intro q hq
  obtain ⟨b, hb⟩ := hInv q (List.mem_cons_of_mem p hq)
  exact ⟨b, processItem_getE_ne hb (NodupIds_head hn q hq)⟩

theorem foldl_getE_stable {oracle : Nat → SendOutcome} :
    ∀ {l : List (Expense × User)} {s : SweepState} {i : Nat} {e : Expense},
      (∀ p ∈ l, p.1.id ≠ i) → getE s.store.expenses i = some e →
      getE ((l.foldl (processItem oracle) s)).store.expenses i = some e := by
  intro l
  induction l with
  | nil => intro s i e _ h; exact h
  | cons a l ih =>
    intro s i e hne h
    rw [List.foldl_cons]
    exact ih (fun p hp => hne p (List.mem_cons_of_mem a hp))
      (processItem_getE_ne h (hne a (List.mem_cons_self a l)))

theorem foldl_calls (oracle : Nat → SendOutcome) :
    ∀ (l : List (Expense × User)) (s : SweepState),
      ((l.foldl (processItem oracle) s)).calls = s.calls ++ l.map (fun p => p.1.id) := by
  intro l
  induction l with
  | nil => intro s; simp
  | cons a l ih =>
    intro s
    rw [List.foldl_cons, ih, processItem_calls]
    simp

theorem foldl_users (oracle : Nat → SendOutcome) :
    ∀ (l : List (Expense × User)) (s : SweepState),
      ((l.foldl (processItem oracle) s)).store.users = s.store.users := by
  intro l
  induction l with
  | nil => intro s; rfl
  | cons a l ih =>
    intro s
    rw [List.foldl_cons, ih, processItem_users]

theorem foldl_WF (oracle : Nat → SendOutcome) :
    ∀ (l : List (Expense × User)) (s : SweepState), WF s.store →
      WF ((l.foldl (processItem oracle) s)).store := by
  intro l
  induction l with
  | nil => intro s h; exact h
  | cons a l ih =>
    intro s h
    rw [List.foldl_cons]
    exact ih _ (WF_processItem oracle s a h)

theorem foldl_flag_ok {oracle : Nat → SendOutcome} :
    ∀ {l : List (Expense × User)} {s : SweepState},
      NodupIds l → InvDue s l → ∀ p ∈ l, oracle p.1.id = SendOutcome.ok →
      getE ((l.foldl (processItem oracle) s)).store.expenses p.1.id
        = some (withSent p.1 1) := by
  intro l
  induction l with
  | nil => intro s _ _ p hp; simp at hp
  | cons a l ih =>
    intro s hn hInv p hp hok
    rw [List.foldl_cons]
    rcases List.mem_cons.mp hp with rfl | hp'
    · obtain ⟨b, hb⟩ := hInv p (List.mem_cons_self p l)
      have hstep : getE (processItem oracle s p).store.expenses p.1.id
          = some (withSent p.1 1) := by
        have := processItem_getE_ok hok hb
        rwa [withSent_withSent] at this
      exact foldl_getE_stable (fun q hq => Ne.symm (NodupIds_head hn q hq)) hstep
    · exact ih (NodupIds_tail hn) (InvDue_step hn hInv) p hp' hok

theorem foldl_flag_notok {oracle : Nat → SendOutcome} :
    ∀ {l : List (Expense × User)} {s : SweepState},
      NodupIds l → InvDue s l → ∀ p ∈ l, oracle p.1.id ≠ SendOutcome.ok →
      getE ((l.foldl (processItem oracle) s)).store.expenses p.1.id
        = getE s.store.expenses p.1.id := by
  intro l
  induction l with
  | nil => intro s _ _ p hp; simp at hp
  | cons a l ih =>
    intro s hn hInv p hp hok
    rw [List.foldl_cons]
    rcases List.mem_cons.mp hp with rfl | hp'
    · obtain ⟨b, hb⟩ := hInv p (List.mem_cons_self p l)
      have hstep : getE (processItem oracle s p).store.expenses p.1.id
          = some (withSent p.1 b) := by
        rw [processItem_store_notok hok]
        exact hb
      rw [hb]
      exact foldl_getE_stable (fun q hq => Ne.symm (NodupIds_head hn q hq)) hstep
    · obtain ⟨b, hb⟩ := hInv p (List.mem_cons_of_mem a hp')
      have hne : a.1.id ≠ p.1.id := NodupIds_head hn p hp'
      have hstep : getE (processItem oracle s a).store.expenses p.1.id
          = some (withSent p.1 b) := processItem_getE_ne hb hne
      rw [ih (NodupIds_tail hn) (InvDue_step hn hInv) p hp' hok, hstep, hb]

theorem foldl_inserted_mem {oracle : Nat → SendOutcome} :
    ∀ {l : List (Expense × User)} {s : SweepState},
      NodupIds l → InvDue s l →
      ∀ q ∈ ((l.foldl (processItem oracle) s)).inserted,
        q ∈ s.inserted ∨
          ∃ p, p ∈ l ∧ oracle p.1.id = SendOutcome.ok ∧ p.1.recurring = "yes" ∧
            q.1 = p.1.id ∧ succShape p q.2 := by
  intro l
  induction l with
  | nil => intro s _ _ q hq; exact Or.inl hq
  | cons a l ih =>
    intro s hn hInv q hq
    rw [List.foldl_cons] at hq
    rcases ih (NodupIds_tail hn) (InvDue_step hn hInv) q hq with h | ⟨p, hp, h2, h3, h4, h5⟩
    · obtain ⟨b, hb⟩ := hInv a (List.mem_cons_self a l)
      rcases processItem_inserted_mem hb h with h' | ⟨h1, h2, h3, h4⟩
      · exact Or.inl h'
      · exact Or.inr ⟨a, List.mem_cons_self a l, h1, h2, h3, h4⟩
    · exact Or.inr ⟨p, List.mem_cons_of_mem a hp, h2, h3, h4, h5⟩

theorem mem_matchUsers {us : List User} {e : Expense} {q : Expense × User} :
    q ∈ matchUsers us e ↔ q.1 = e ∧ q.2 ∈ us ∧ q.2.id = e.user_id := by
  simp only [matchUsers, List.mem_map, List.mem_filter, beq_iff_eq]
  constructor
  · rintro ⟨u, ⟨hu, hid⟩, rfl⟩
    exact ⟨rfl, hu, hid⟩
  · rintro ⟨h1, h2, h3⟩
    refine ⟨q.2, ⟨h2, h3⟩, ?_⟩
    rw [← h1]

theorem mem_dueJoin {st : Store} {today : SDate} {p : Expense × User} :
    p ∈ dueJoin st today ↔
      p.1 ∈ st.expenses ∧ dateLe p.1.reminder_date today = true ∧
      p.1.email_sent = 0 ∧ p.2 ∈ st.users ∧ p.2.id = p.1.user_id := by
  simp only [dueJoin, List.mem_flatMap, List.mem_filter]
  constructor
  · rintro ⟨e, ⟨he, hpred⟩, hq⟩
    obtain ⟨h1, h2, h3⟩ := mem_matchUsers.mp hq
    subst h1
    simp only [duePred, Bool.and_eq_true, beq_iff_eq] at hpred
    exact ⟨he, hpred.1, hpred.2, h2, h3⟩
  · rintro ⟨h1, h2, h3, h4, h5⟩
    refine ⟨p.1, ⟨h1, ?_⟩, mem_matchUsers.mpr ⟨rfl, h4, h5⟩⟩
    simp only [duePred, Bool.and_eq_true, beq_iff_eq]
    exact ⟨h2, h3⟩

theorem mem_dueSorted {st : Store} {today : SDate} {p : Expense × User} :
    p ∈ dueSorted st today ↔ p ∈ dueJoin st today :=
  List.mem_insertionSort dueKeyLe

theorem mem_pendingJoin {st : Store} {today : SDate} {p : Expense × User} :
    p ∈ pendingJoin st today ↔
      p.1 ∈ st.expenses ∧ dateLe p.1.reminder_date today = true ∧
      p.1.email_sent = 0 ∧ (p.1.paid = some 0 ∨ p.1.paid = none) ∧
      p.2 ∈ st.users ∧ p.2.id = p.1.user_id := by
  simp only [pendingJoin, List.mem_flatMap, List.mem_filter]
  constructor
  · rintro ⟨e, ⟨he, hpred⟩, hq⟩
    obtain ⟨h1, h2, h3⟩ := mem_matchUsers.mp hq
    subst h1
    simp only [pendingPred, Bool.and_eq_true, beq_iff_eq, decide_eq_true_eq] at hpred
    exact ⟨he, hpred.1.1, hpred.1.2, hpred.2, h2, h3⟩
  · rintro ⟨h1, h2, h3, h4, h5, h6⟩
    refine ⟨p.1, ⟨h1, ?_⟩, mem_matchUsers.mpr ⟨rfl, h5, h6⟩⟩
    simp only [pendingPred, Bool.and_eq_true, beq_iff_eq, decide_eq_true_eq]
    exact ⟨⟨h2, h3⟩, h4⟩

theorem mem_pendingSorted {st : Store} {today : SDate} {p : Expense × User} :
    p ∈ pendingSorted st today ↔ p ∈ pendingJoin st today :=
  List.mem_insertionSort pendingKeyLe

theorem matchUsers_cases {us : List User} (hn : (us.map User.id).Nodup) (e : Expense) :
    matchUsers us e = [] ∨ ∃ u, matchUsers us e = [(e, u)] := by
  induction us with
  | nil => exact Or.inl rfl
  | cons u us ih =>
    simp only [List.map_cons, List.nodup_cons] at hn
    by_cases hu : u.id = e.user_id
    · right
      refine ⟨u, ?_⟩
      have hrest : us.filter (fun v => v.id == e.user_id) = [] := by
        rw [List.filter_eq_nil_iff]
        intro v hv hvid
        simp only [beq_iff_eq] at hvid
        exact hn.1 ((hvid.trans hu.symm) ▸ List.mem_map_of_mem User.id hv)
      simp [matchUsers, List.filter_cons, hu, hrest]
    · have : (u :: us).filter (fun v => v.id == e.user_id)
          = us.filter (fun v => v.id == e.user_id) := by
        simp [List.filter_cons, hu]
      rcases ih hn.2 with h | ⟨w, hw⟩
      · left
        simp only [matchUsers] at h ⊢
        rw [this, h]
      · right
        refine ⟨w, ?_⟩
        simp only [matchUsers] at hw ⊢
        rw [this, hw]

theorem fst_mem_of_mem_flatMap {es : List Expense} {us : List User} {q : Expense × User}
    (h : q ∈ es.flatMap (matchUsers us)) : q.1 ∈ es := by
  obtain ⟨e, he, hq⟩ := List.mem_flatMap.mp h
  obtain ⟨h1, _, _⟩ := mem_matchUsers.mp hq
  rw [h1]
  exact he

theorem nodup_ids_flatMap {us : List User} (hus : (us.map User.id).Nodup) :
    ∀ {es : List Expense}, (es.map Expense.id).Nodup →
      ((es.flatMap (matchUsers us)).map (fun p => p.1.id)).Nodup := by
  intro es
  induction es with
  | nil => intro; simp
  | cons e es ih =>
    intro hn
    simp only [List.map_cons, List.nodup_cons] at hn
    rw [List.flatMap_cons, List.map_append]
    rw [List.nodup_append]
    refine ⟨?_, ih hn.2, ?_⟩
    · rcases matchUsers_cases hus e with h | ⟨u, h⟩ <;> simp [h]
    · intro x hx hx2
      have hxe : x = e.id := by
        rcases matchUsers_cases hus e with h | ⟨u, h⟩
        · rw [h] at hx
          simp at hx
        · rw [h] at hx
          simp only [List.map_cons, List.map_nil, List.mem_singleton] at hx
          exact hx
      obtain ⟨q, hq, hqx⟩ := List.mem_map.mp hx2
      have hqes : q.1 ∈ es := fst_mem_of_mem_flatMap hq
      exact hn.1 ((hqx.trans hxe) ▸ List.mem_map_of_mem Expense.id hqes)

theorem nodup_ids_dueJoin {st : Store} {today : SDate} (hwf : WF st) :
    ((dueJoin st today).map (fun p => p.1.id)).Nodup := by
  obtain ⟨h1, h2, _⟩ := hwf
  have hfil : ((st.expenses.filter (duePred today)).map Expense.id).Nodup :=
    h1.sublist ((List.filter_sublist st.expenses).map Expense.id)
  exact nodup_ids_flatMap h2 hfil

theorem NodupIds_dueSorted {st : Store} {today : SDate} (hwf : WF st) :
    NodupIds (dueSorted st today) := by
  have hperm : List.Perm ((dueSorted st today).map (fun p => p.1.id))
      ((dueJoin st today).map (fun p => p.1.id)) :=
    (List.perm_insertionSort dueKeyLe (dueJoin st today)).map (fun p => p.1.id)
  exact hperm.nodup_iff.mpr (nodup_ids_dueJoin hwf)

theorem InvDue_init {st : Store} {today : SDate} (hwf : WF st) :
    InvDue { store := st, calls := [], inserted := [] } (dueSorted st today) := by
  intro q hq
  have hmem : q.1 ∈ st.expenses := (mem_dueJoin.mp (mem_dueSorted.mp hq)).1
  refine ⟨q.1.email_sent, ?_⟩
  rw [withSent_self]
  exact getE_of_mem_nodup hwf.1 hmem

theorem eq_of_mem_id {l : List Expense} (hn : (l.map Expense.id).Nodup)
    {a b : Expense} (ha : a ∈ l) (hb : b ∈ l) (hid : a.id = b.id) : a = b :=
  List.inj_on_of_nodup_map hn ha hb hid

theorem getE_map_id_pres {f : Expense → Expense} (hid : ∀ e, (f e).id = e.id) :
    ∀ (l : List Expense) (i : Nat), getE (l.map f) i = (getE l i).map f := by
  intro l
  induction l with
  | nil => intro i; rfl
  | cons a as ih =>
    intro i
    by_cases ha : a.id = i
    · have : (f a).id = i := (hid a).trans ha
      simp only [List.map_cons, getE, if_pos this, if_pos ha, Option.map_some']
    · have : (f a).id ≠ i := fun h => ha ((hid a) ▸ h)
      simp only [List.map_cons, getE, if_neg this, if_neg ha]
      exact ih i

theorem applyUpdates_id (e : Expense) (b : UpdateBody) : (applyUpdates e b).id = e.id := by
  unfold applyUpdates
  cases b.expense_name <;> cases b.amount <;> cases b.category <;>
    cases b.due_date <;> cases b.reminder_date <;> cases b.recurring <;> rfl

theorem applyUpdates_reminder (e : Expense) (b : UpdateBody) (r : SDate)
    (h : b.reminder_date = some r) :
    (applyUpdates e b).reminder_date = r ∧ (applyUpdates e b).email_sent = 0 := by
  unfold applyUpdates
  rw [h]
  cases b.recurring <;> exact ⟨rfl, rfl⟩

/-- C1: for every expense in the due set of a sweep (reminder_date <=
today and email_sent = 0, joined with its owner), after one sweep in
which every Notifier call succeeds, the expense has email_sent = 1 and
exactly one sendReminderEmail call was made for it during the sweep. -/
theorem sweep_marks_sent_once (st : Store) (today : SDate) (oracle : Nat → SendOutcome)
    (p : Expense × User) (hwf : WF st) (hok : ∀ i, oracle i = SendOutcome.ok)
    (hp : p ∈ dueSorted st today) :
    getE (processReminders st today oracle).store.expenses p.1.id = some (withSent p.1 1) ∧
    (processReminders st today oracle).calls.count p.1.id = 1 := by
  constructor
  · unfold processReminders
    exact foldl_flag_ok (NodupIds_dueSorted hwf) (InvDue_init hwf) p hp (hok p.1.id)
  · have hc : (processReminders st today oracle).calls
        = (dueSorted st today).map (fun q => q.1.id) := by
      unfold processReminders
      rw [foldl_calls]
      simp
    rw [hc]
    exact List.count_eq_one_of_mem (NodupIds_dueSorted hwf)
      (List.mem_map_of_mem (fun q => q.1.id) hp)

/-- C3: running the sweep twice in succession with no intervening data
changes sends at most once per expense: after a first sweep in which
every send succeeded, the due-set query over the resulting store returns
no row carrying the id of any item of the first due set. -/
theorem sweep_idempotent (st : Store) (today : SDate) (oracle : Nat → SendOutcome)
    (p : Expense × User) (hwf : WF st) (hok : ∀ i, oracle i = SendOutcome.ok)
    (hp : p ∈ dueSorted st today) :
    p.1.id ∉ (dueSorted (processReminders st today oracle).store today).map
      (fun q => q.1.id) := by
  intro hmem
  obtain ⟨q, hq, hqid⟩ := List.mem_map.mp hmem
  have hq' := mem_dueJoin.mp (mem_dueSorted.mp hq)
  have hwf' : WF (processReminders st today oracle).store := by
    unfold processReminders
    exact foldl_WF oracle _ _ hwf
  have hgq : getE (processReminders st today oracle).store.expenses q.1.id = some q.1 :=
    getE_of_mem_nodup hwf'.1 hq'.1
  have hgp : getE (processReminders st today oracle).store.expenses p.1.id
      = some (withSent p.1 1) := by
    unfold processReminders
    exact foldl_flag_ok (NodupIds_dueSorted hwf) (InvDue_init hwf) p hp (hok p.1.id)
  rw [hqid] at hgq
  rw [hgq] at hgp
  have h1 : q.1.email_sent = 1 := by
    rw [Option.some.inj hgp]
    rfl
  have h0 : q.1.email_sent = 0 := hq'.2.2.1
  omega

/-- C4: the due set computed by a sweep contains exactly the expenses
with reminder_date <= today and email_sent = 0 joined with their owner,
ordered ascending by due_date, and an expense whose reminder_date is
after today receives no Notifier call. -/
theorem due_set_characterisation (st : Store) (today : SDate) (oracle : Nat → SendOutcome)
    (p : Expense × User) (e : Expense) (hwf : WF st) (he : e ∈ st.expenses)
    (hlate : dateLe e.reminder_date today = false) :
    (p ∈ dueSorted st today ↔
      p.1 ∈ st.expenses ∧ dateLe p.1.reminder_date today = true ∧ p.1.email_sent = 0 ∧
      p.2 ∈ st.users ∧ p.2.id = p.1.user_id) ∧
    List.Sorted dueKeyLe (dueSorted st today) ∧
    e.id ∉ (processReminders st today oracle).calls := by
  refine ⟨mem_dueSorted.trans mem_dueJoin, List.sorted_insertionSort dueKeyLe _, ?_⟩
  intro hmem
  have hc : (processReminders st today oracle).calls
      = (dueSorted st today).map (fun q => q.1.id) := by
    unfold processReminders
    rw [foldl_calls]
    simp
  rw [hc] at hmem
  obtain ⟨q, hq, hqid⟩ := List.mem_map.mp hmem
  have hq' := mem_dueJoin.mp (mem_dueSorted.mp hq)
  have hqe : q.1 = e := eq_of_mem_id hwf.1 hq'.1 he hqid
  rw [hqe] at hq'
  simp [hq'.2.1] at hlate

/-- C5: when the Notifier call for a due-set item fails or its processing
throws, that item keeps email_sent = 0 and its stored row is unchanged,
no successor is inserted for it, and every item of the due set still
receives its Notifier call, with any item whose send succeeds still
marked sent in the same sweep. -/
theorem sweep_failure_isolated (st : Store) (today : SDate) (oracle : Nat → SendOutcome)
    (p r : Expense × User) (hwf : WF st) (hp : p ∈ dueSorted st today)
    (hfail : oracle p.1.id ≠ SendOutcome.ok) (hr : r ∈ dueSorted st today)
    (hrok : oracle r.1.id = SendOutcome.ok) :
    getE (processReminders st today oracle).store.expenses p.1.id = some p.1 ∧
    p.1.email_sent = 0 ∧
    p.1.id ∉ (processReminders st today oracle).inserted.map (fun q => q.1) ∧
    p.1.id ∈ (processReminders st today oracle).calls ∧
    r.1.id ∈ (processReminders st today oracle).calls ∧
    getE (processReminders st today oracle).store.expenses r.1.id
      = some (withSent r.1 1) := by
  have hnd : NodupIds (dueSorted st today) := NodupIds_dueSorted hwf
  have hinv : InvDue { store := st, calls := [], inserted := [] } (dueSorted st today) :=
    InvDue_init hwf
  have hp' := mem_dueJoin.mp (mem_dueSorted.mp hp)
  have hc : (processReminders st today oracle).calls
      = (dueSorted st today).map (fun q => q.1.id) := by
    unfold processReminders
    rw [foldl_calls]
    simp
  refine ⟨?_, hp'.2.2.1, ?_, ?_, ?_, ?_⟩
  · have h1 : getE (processReminders st today oracle).store.expenses p.1.id
        = getE st.expenses p.1.id := by
      unfold processReminders
      exact foldl_flag_notok hnd hinv p hp hfail
    rw [h1]
    exact getE_of_mem_nodup hwf.1 hp'.1
  · intro hmem
    obtain ⟨q, hq, hqid⟩ := List.mem_map.mp hmem
    unfold processReminders at hq
    rcases foldl_inserted_mem hnd hinv q hq with h | ⟨p2, hp2, h1, _, h3, _⟩
    · simp at h
    · have : p2 = p := by
        refine List.inj_on_of_nodup_map hnd hp2 hp ?_
        rw [← h3, hqid]
      rw [this] at h1
      exact hfail h1
  · rw [hc]
    exact List.mem_map_of_mem (fun q => q.1.id) hp
  · rw [hc]
    exact List.mem_map_of_mem (fun q => q.1.id) hr
  · unfold processReminders
    exact foldl_flag_ok hnd hinv r hr hrok

/-- C8: every row the sweep inserts is the successor of a due-set item
whose send succeeded and whose recurring flag is yes, carrying the same
owner, name, amount and category, recurring yes and email_sent 0; and
every pre-existing row is either unchanged or changed only in its
email_sent column. -/
theorem sweep_successor_and_frame (st : Store) (today : SDate) (oracle : Nat → SendOutcome)
    (q : Nat × Expense) (e : Expense) (hwf : WF st)
    (hq : q ∈ (processReminders st today oracle).inserted) (he : e ∈ st.expenses) :
    (∃ p, p ∈ dueSorted st today ∧ oracle p.1.id = SendOutcome.ok ∧
      p.1.recurring = "yes" ∧ q.1 = p.1.id ∧ succShape p q.2) ∧
    (getE (processReminders st today oracle).store.expenses e.id = some e ∨
     getE (processReminders st today oracle).store.expenses e.id = some (withSent e 1)) := by
  have hnd : NodupIds (dueSorted st today) := NodupIds_dueSorted hwf
  have hinv : InvDue { store := st, calls := [], inserted := [] } (dueSorted st today) :=
    InvDue_init hwf
  constructor
  · unfold processReminders at hq
    rcases foldl_inserted_mem hnd hinv q hq with h | ⟨p, hp, h1, h2, h3, h4⟩
    · simp at h
    · exact ⟨p, hp, h1, h2, h3, h4⟩
  · by_cases hdue : ∃ p, p ∈ dueSorted st today ∧ p.1.id = e.id
    · obtain ⟨p, hp, hid⟩ := hdue
      have hpmem := (mem_dueJoin.mp (mem_dueSorted.mp hp)).1
      have hpe : p.1 = e := eq_of_mem_id hwf.1 hpmem he hid
      by_cases horc : oracle e.id = SendOutcome.ok
      · right
        have h1 : getE (processReminders st today oracle).store.expenses p.1.id
            = some (withSent p.1 1) := by
          unfold processReminders
          exact foldl_flag_ok hnd hinv p hp (by rw [hid]; exact horc)
        rw [hpe] at h1
        rw [← hid, hpe]
        rw [hpe] at hid
        exact h1
      · left
        have h1 : getE (processReminders st today oracle).store.expenses p.1.id
            = getE st.expenses p.1.id := by
          unfold processReminders
          exact foldl_flag_notok hnd hinv p hp (by rw [hid]; exact horc)
        rw [hpe] at h1
        rw [h1]
        exact getE_of_mem_nodup hwf.1 he
    · left
      push_neg at hdue
      have hstable : ∀ p ∈ dueSorted st today, p.1.id ≠ e.id := hdue
      unfold processReminders
      exact foldl_getE_stable hstable (getE_of_mem_nodup hwf.1 he)

/-- C2 (code evaluation): at the failing input of the recurrence claim,
a recurring expense with due_date 2024-01-31, the date computation of
createNextRecurringExpense produces 2024-03-02 (JS Date setMonth
overflow), not the clamped 2024-02-29 the claim states, and the sweep
inserts the successor with that overflowed due_date. -/
theorem recurrence_overflow_eval :
    addOneMonthJS ⟨2024, 1, 31⟩ = ⟨2024, 3, 2⟩ ∧
    (processReminders stJ ⟨2024, 1, 25⟩ okOracle).inserted.map (fun q => q.2.due_date)
      = [⟨2024, 3, 2⟩] ∧
    (⟨2024, 3, 2⟩ : SDate) ≠ ⟨2024, 2, 29⟩ :=
  ⟨rfl, by decide, by decide⟩

/-- C6: for an existing expense owned by the requesting user, an update
whose body provides reminder_date stores the new reminder_date and
resets email_sent to 0, so an already-notified expense becomes eligible
for notification again. -/
theorem update_reminder_resets_notified (st : Store) (uid eid : Nat) (b : UpdateBody)
    (e : Expense) (r : SDate) (st' : Store) (hwf : WF st)
    (hown : getOwned st.expenses eid uid = some e) (hb : b.reminder_date = some r)
    (hupd : updateExpense st uid eid b = .ok st') :
    ∃ e2, getE st'.expenses eid = some e2 ∧ e2.reminder_date = r ∧ e2.email_sent = 0 := by
  have hprop := List.find?_some hown
  have hmem := List.mem_of_find?_eq_some hown
  simp only [Bool.and_eq_true, beq_iff_eq] at hprop
  unfold updateExpense at hupd
  rw [hown] at hupd
  by_cases hemp : updatesEmpty b
  · rw [if_pos hemp] at hupd
    simp at hupd
  · rw [if_neg hemp] at hupd
    have hst' := (Except.ok.inj hupd).symm
    rw [hst']
    have hid : ∀ e0 : Expense,
        ((fun e0 => if e0.id = eid ∧ e0.user_id = uid then applyUpdates e0 b else e0) e0).id
          = e0.id := by
      intro e0
      by_cases h : e0.id = eid ∧ e0.user_id = uid
      · simp only [if_pos h]
        exact applyUpdates_id e0 b
      · simp only [if_neg h]
    have hg : getE st.expenses eid = some e := by
      have h0 := getE_of_mem_nodup hwf.1 hmem
      rwa [hprop.1] at h0
    refine ⟨applyUpdates e b, ?_, (applyUpdates_reminder e b r hb).1,
      (applyUpdates_reminder e b r hb).2⟩
    show getE (st.expenses.map _) eid = _
    rw [getE_map_id_pres hid, hg]
    simp only [Option.map_some']
    rw [if_pos ⟨hprop.1, hprop.2⟩]

/-- C7 (counterexample): the update route accepts a body whose
reminder_date lies after the stored due_date; at the sample store the
update of expense 6 with reminder_date 2024-12-31 succeeds, changes the
store, and leaves a row violating reminder_date <= due_date — the claim
that the update operation rejects such requests is false on the code. -/
theorem update_accepts_invariant_violation :
    updateExpense stA 1 6 bodyV = .ok stA6V ∧
    getE stA6V.expenses 6 = some { eNote with reminder_date := ⟨2024, 12, 31⟩, email_sent := 0 } ∧
    dateLt eNote.due_date (⟨2024, 12, 31⟩ : SDate) = true ∧
    stA6V ≠ stA :=
  ⟨rfl, rfl, by decide, by decide⟩

/-- C7 (amended): the create route rejects a body whose reminder_date is
after its due_date with the validation error, a successful create only
adds rows satisfying reminder_date <= due_date, and the update route
(see the counterexample) performs no such check. -/
theorem create_enforces_invariant (st : Store) (uid : Nat) (b b2 : CreateBody) (st' : Store)
    (e2 : Expense) (hv : dateLt b.due_date b.reminder_date = true)
    (hs : createExpense st uid b2 = .ok st') (he2 : e2 ∈ st'.expenses) :
    createExpense st uid b = .error "Reminder date cannot be after due date" ∧
    (e2 ∈ st.expenses ∨ dateLe e2.reminder_date e2.due_date = true) := by
  constructor
  · unfold createExpense
    rw [if_pos hv]
  · unfold createExpense at hs
    by_cases hv2 : dateLt b2.due_date b2.reminder_date = true
    · rw [if_pos hv2] at hs
      simp at hs
    · rw [if_neg hv2] at hs
      have hst' := (Except.ok.inj hs).symm
      rw [hst'] at he2
      simp only [List.mem_append, List.mem_singleton] at he2
      rcases he2 with h | h
      · exact Or.inl h
      · right
        rw [h]
        show dateLe b2.reminder_date b2.due_date = true
        simp only [dateLt, decide_eq_true_eq] at hv2
        simp only [dateLe, decide_eq_true_eq]
        omega

/-- C9 (counterexample): on a store holding one paid expense whose
reminder is due, the pending-reminders diagnostic query returns no row
while the sweep due-set query returns the expense, so the two queries do
not select the same set of expenses. -/
theorem pending_differs_from_due :
    (pendingSorted stC ⟨2024, 3, 10⟩).map (fun p => p.1)
      ≠ (dueSorted stC ⟨2024, 3, 10⟩).map (fun p => p.1) := by
  decide

/-- C9 (amended): the pending-reminders diagnostic query selects exactly
the rows of the sweep due-set query whose paid column is 0 or NULL, and
orders its result ascending by reminder_date rather than by due_date. -/
theorem pending_refines_due (st : Store) (today : SDate) (p : Expense × User) :
    (p ∈ pendingSorted st today ↔
      p ∈ dueSorted st today ∧ (p.1.paid = some 0 ∨ p.1.paid = none)) ∧
    List.Sorted pendingKeyLe (pendingSorted st today) := by
  constructor
  · rw [mem_pendingSorted, mem_dueSorted, mem_pendingJoin, mem_dueJoin]
    tauto
  · exact List.sorted_insertionSort pendingKeyLe _

/-- C10: sendReminderEmail always returns a result value: with the
client uninitialised it returns the configuration failure, a provider
error or a thrown provider exception yields a failure carrying the
message, and a success result arises only from a provider-confirmed send
whose message id it carries. -/
theorem sendReminderEmail_total (c : Option ProviderResult) (i m : String)
    (hs : sendReminderEmail c = SendResult.success i) :
    sendReminderEmail none = SendResult.failure "Email service not configured" ∧
    sendReminderEmail (some (ProviderResult.errs m)) = SendResult.failure m ∧
    sendReminderEmail (some (ProviderResult.throws m)) = SendResult.failure m ∧
    c = some (ProviderResult.ok i) := by
  refine ⟨rfl, rfl, rfl, ?_⟩
  match c with
  | none => simp [sendReminderEmail] at hs
  | some (.throws m2) => simp [sendReminderEmail] at hs
  | some (.errs m2) => simp [sendReminderEmail] at hs
  | some (.ok j) =>
    simp only [sendReminderEmail, SendResult.success.injEq] at hs
    rw [hs]

/-- Witness for C1 at the sample store: expense 1 is due on the sample
day, and after an all-successful sweep it is marked sent with exactly
one call. -/
theorem sweep_marks_sent_once_witness :
    getE (processReminders stA dayA okOracle).store.expenses 1 = some (withSent eRent 1) ∧
    (processReminders stA dayA okOracle).calls.count 1 = 1 :=
  sweep_marks_sent_once stA dayA okOracle (eRent, uA) (by decide) (fun _ => rfl) (by decide)

/-- Witness for C3 at the sample store: after an all-successful sweep the
second due set carries no row with id 3. -/
theorem sweep_idempotent_witness :
    (3 : Nat) ∉ (dueSorted (processReminders stA dayA okOracle).store dayA).map
      (fun q => q.1.id) :=
  sweep_idempotent stA dayA okOracle (eGym, uA) (by decide) (fun _ => rfl) (by decide)

/-- Witness for C4 at the sample store: the characterisation holds for
the rent row, the due set is sorted, and the expense whose reminder lies
after the sweep day receives no call. -/
theorem due_set_characterisation_witness :
    ((eRent, uA) ∈ dueSorted stA dayA ↔
      eRent ∈ stA.expenses ∧ dateLe eRent.reminder_date dayA = true ∧ eRent.email_sent = 0 ∧
      uA ∈ stA.users ∧ uA.id = eRent.user_id) ∧
    List.Sorted dueKeyLe (dueSorted stA dayA) ∧
    (4 : Nat) ∉ (processReminders stA dayA okOracle).calls :=
  due_set_characterisation stA dayA okOracle (eRent, uA) eFuture (by decide) (by decide)
    (by decide)

/-- Witness for C5 at the sample store: under the oracle failing expense
3, that expense stays unchanged and spawns no successor while expense 1
is still called and marked. -/
theorem sweep_failure_isolated_witness :
    getE (processReminders stA dayA failOracle).store.expenses 3 = some eGym ∧
    eGym.email_sent = 0 ∧
    (3 : Nat) ∉ (processReminders stA dayA failOracle).inserted.map (fun q => q.1) ∧
    (3 : Nat) ∈ (processReminders stA dayA failOracle).calls ∧
    (1 : Nat) ∈ (processReminders stA dayA failOracle).calls ∧
    getE (processReminders stA dayA failOracle).store.expenses 1 = some (withSent eRent 1) :=
  sweep_failure_isolated stA dayA failOracle (eGym, uA) (eRent, uA) (by decide) (by decide)
    (by decide) (by decide) (by decide)

/-- Witness for C6 at the sample store: updating notified expense 6 with
a new reminder_date stores it and resets email_sent to 0. -/
theorem update_reminder_resets_notified_witness :
    ∃ e2, getE stA6.expenses 6 = some e2 ∧ e2.reminder_date = ⟨2024, 6, 1⟩ ∧
      e2.email_sent = 0 :=
  update_reminder_resets_notified stA 1 6 bodyR eNote ⟨2024, 6, 1⟩ stA6 (by decide) rfl rfl rfl

/-- Witness for C7 (amended) at the sample store: the violating body is
rejected and the row created from the valid body satisfies the
invariant. -/
theorem create_enforces_invariant_witness :
    createExpense stA 1 bodyBad = .error "Reminder date cannot be after due date" ∧
    (eLoan ∈ stA.expenses ∨ dateLe eLoan.reminder_date eLoan.due_date = true) :=
  create_enforces_invariant stA 1 bodyBad bodyGood stA7 eLoan (by decide) rfl (by decide)

/-- Witness for C8 at the sample store: the inserted successor of expense
3 has the successor shape, and the untouched expense 4 is unchanged. -/
theorem sweep_successor_and_frame_witness :
    (∃ p, p ∈ dueSorted stA dayA ∧ okOracle p.1.id = SendOutcome.ok ∧
      p.1.recurring = "yes" ∧ (3 : Nat) = p.1.id ∧ succShape p succGym) ∧
    (getE (processReminders stA dayA okOracle).store.expenses eFuture.id = some eFuture ∨
     getE (processReminders stA dayA okOracle).store.expenses eFuture.id
       = some (withSent eFuture 1)) :=
  sweep_successor_and_frame stA dayA okOracle (3, succGym) eFuture (by decide) (by decide)
    (by decide)

/-- Witness for C10: a provider-confirmed send returns its message id,
and the failure equations hold. -/
theorem sendReminderEmail_total_witness :
    sendReminderEmail none = SendResult.failure "Email service not configured" ∧
    sendReminderEmail (some (ProviderResult.errs "boom")) = SendResult.failure "boom" ∧
    sendReminderEmail (some (ProviderResult.throws "boom")) = SendResult.failure "boom" ∧
    some (ProviderResult.ok "msg1") = some (ProviderResult.ok "msg1") :=
  sendReminderEmail_total (some (ProviderResult.ok "msg1")) "msg1" "boom" rfl

end ExpensesReminder
